import Mathlib

/-!
Verification of the SafeLayer-Chat redaction engine.

The engine under study is the class `SimpleSecureAI` in
`src/simple_chat_demo.py`: six regular-expression detection rules
(`self.patterns`), a memoised entity-to-mask table
(`get_or_create_mapping`) and the redaction pass (`redact_content`).
The SDK-side input validation of `SecureAI.redact_text`
(`src/src/secureai_sdk/client.py`) is embedded as well.

Strings are modelled as `List Char` (the engine only ever sees ASCII
input in the repository's own demos, and Python's `str.lower` agrees
with `Char.toLower` on ASCII).  Python's `re.findall` is embedded by a
small backtracking matcher over an abstract syntax of exactly the regex
features the six patterns use; `re.IGNORECASE` (which
`detect_entities` passes for every rule) is baked into the character
classes and literals.  `re.findall` returns the text of capture group 1
when the pattern has a group (the `phone` and `api_key` rules) and the
whole match otherwise; an unmatched optional group yields the empty
string.  `str.replace` replaces every non-overlapping occurrence, left
to right, and an empty pattern inserts the replacement at every
position.  All of this is reproduced below.
-/

/-- Strings as lists of characters. -/
abbrev Str := List Char

/-- Coercion helper: a Lean string literal as a `Str`. -/
def str (s : String) : Str := s.data

/-- ASCII decimal digit (the class `\d` of the source patterns). -/
def isDig (c : Char) : Bool := '0' ≤ c && c ≤ '9'

/-- ASCII letter.  Under `re.IGNORECASE` both `[A-Z]` and `[a-z]`
match exactly these characters. -/
def isLetter (c : Char) : Bool := ('A' ≤ c && c ≤ 'Z') || ('a' ≤ c && c ≤ 'z')

/-- Python regex word character (`\b` boundaries): `[A-Za-z0-9_]`. -/
def isWordChar (c : Char) : Bool := isLetter c || isDig c || c = '_'

/-- Python whitespace, the class `\s`: space, tab, newline, carriage
return, form feed, vertical tab. -/
def isPyWs (c : Char) : Bool :=
  c = ' ' || c = '\t' || c = '\n' || c = '\r' || c = '\x0c' || c = '\x0b'

/-- The class `[A-Za-z0-9._%+-]` (local part of the `email` pattern). -/
def isEmailLocal (c : Char) : Bool :=
  isLetter c || isDig c || c = '.' || c = '_' || c = '%' || c = '+' || c = '-'

/-- The class `[A-Za-z0-9.-]` (domain part of the `email` pattern). -/
def isEmailDomain (c : Char) : Bool := isLetter c || isDig c || c = '.' || c = '-'

/-- The class `[A-Z|a-z]` of the `email` pattern: letters and, verbatim
from the source regex, the literal `|`. -/
def isTld (c : Char) : Bool := isLetter c || c = '|'

/-- The separator class `[-.\s]` of the `phone` and `credit_card`
patterns. -/
def isSep (c : Char) : Bool := c = '-' || c = '.' || isPyWs c

/-- The class `[a-zA-Z0-9]` (suffix of the `api_key` pattern). -/
def isAlnum (c : Char) : Bool := isLetter c || isDig c

/-- Python `str.lower` restricted to ASCII (`Char.toLower` lower-cases
exactly `A`–`Z`). -/
def pyLower (s : Str) : Str := s.map Char.toLower

/-- Python `str.upper` restricted to ASCII. -/
def pyUpper (s : Str) : Str := s.map Char.toUpper

/-- Python `s[:n]`. -/
def pyTake (n : Nat) (s : Str) : Str := List.take n s

/-- Python `s[-n:]` (for `n > 0`): the last `n` characters, or all of
`s` when it is shorter than `n`. -/
def pyTakeLast (n : Nat) (s : Str) : Str := List.drop (s.length - n) s

/-- Python `str.split(sep)` for a one-character separator: split at
every occurrence, keeping empty pieces; never returns `[]`. -/
def splitOnChar (sep : Char) : Str → List Str
  | [] => [[]]
  | c :: cs =>
    if c = sep then [] :: splitOnChar sep cs
    else
      match splitOnChar sep cs with
      | [] => [[c]]
      | p :: ps => (c :: p) :: ps

/-- Python `str.strip()`: drop leading and trailing whitespace. -/
def pyStrip (s : Str) : Str :=
  ((List.dropWhile isPyWs s).reverse.dropWhile isPyWs).reverse

/-- `re.sub(r'\D', '', s)`: keep only the digits. -/
def keepDigits (s : Str) : Str := List.filter isDig s

/-- Abstract syntax for exactly the regex features the six patterns of
`SimpleSecureAI.patterns` use.  `clsRep p lo hi` is a greedy counted
repetition `p{lo,hi}` of a one-character class (`hi = none` meaning no
upper bound); `grp` is capture group 1; `wordB` is `\b`. -/
inductive Re : Type where
  | eps : Re
  | cls : (Char → Bool) → Re
  | cat : Re → Re → Re
  | alt : Re → Re → Re
  | opt : Re → Re
  | clsRep : (Char → Bool) → Nat → Option Nat → Re
  | grp : Re → Re
  | wordB : Re

/-- The character that precedes the rest of the input (`none` at the
start of the text), used to decide `\b`. -/
def lastOr (xs : Str) (p : Option Char) : Option Char :=
  match xs.getLast? with
  | some c => some c
  | none => p

/-- Is there a word boundary between a previous character and the next
character? -/
def isBoundary (p n : Option Char) : Bool :=
  (match p with | some c => isWordChar c | none => false)
    != (match n with | some c => isWordChar c | none => false)

/-- All ways a repeated character class can consume a prefix of `s`,
longest first (greedy), as consumption counts. -/
def repCounts (p : Char → Bool) (lo : Nat) (hi : Option Nat) (s : Str) : List Nat :=
  let run := (List.takeWhile p s).length
  let top := match hi with | some h => min h run | none => run
  (List.range (top + 1)).reverse.filter (fun k => lo ≤ k)

/-- Backtracking matcher.  `matchRe r prev s` returns every way `r` can
match a prefix of `s`, as `(consumed, captured-group-1, rest)`, in
Python's preference order: alternatives left first, `?` and counted
repetition greedy.  `prev` is the character just before `s` in the
overall text. -/
def matchRe : Re → Option Char → Str → List (Str × Option Str × Str)
  | Re.eps, _, s => [([], none, s)]
  | Re.cls p, _, s =>
    match s with
    | [] => []
    | c :: cs => if p c then [([c], none, cs)] else []
  | Re.cat a b, prev, s =>
    (matchRe a prev s).flatMap fun x =>
      (matchRe b (lastOr x.1 prev) x.2.2).map fun y =>
        (x.1 ++ y.1, (x.2.1 <|> y.2.1), y.2.2)
  | Re.alt a b, prev, s => matchRe a prev s ++ matchRe b prev s
  | Re.opt a, prev, s => matchRe a prev s ++ [([], none, s)]
  | Re.clsRep p lo hi, _, s =>
    (repCounts p lo hi s).map fun k => (List.take k s, none, List.drop k s)
  | Re.grp a, prev, s =>
    (matchRe a prev s).map fun x => (x.1, some x.1, x.2.2)
  | Re.wordB, prev, s =>
    if isBoundary prev s.head? then [([], none, s)] else []

/-- The leftmost-position match at the current position, if any:
Python semantics take the first alternative in preference order. -/
def firstMatch (r : Re) (prev : Option Char) (s : Str) :
    Option (Str × Option Str × Str) :=
  (matchRe r prev s).head?

/-- One `re.findall` result: the whole match and, if the pattern has a
group, the group-1 capture (`none` when the optional group did not
participate). -/
def findAllAux (r : Re) : Nat → Option Char → Str → List (Str × Option Str)
  | 0, _, _ => []
  | fuel + 1, prev, s =>
    match firstMatch r prev s with
    | some (m, cap, rest) =>
      if m.isEmpty then
        (m, cap) ::
          (match s with
           | [] => []
           | c :: cs => findAllAux r fuel (some c) cs)
      else (m, cap) :: findAllAux r fuel (lastOr m prev) rest
    | none =>
      match s with
      | [] => []
      | c :: cs => findAllAux r fuel (some c) cs

/-- `re.findall(r, s)`: scan left to right, matches do not overlap. -/
def findAll (r : Re) (s : Str) : List (Str × Option Str) :=
  findAllAux r (s.length + 1) none s

/-- Like `findAll` but also reporting the start offset of each whole
match (used by the spec-side model, which works with spans). -/
def findAllSpansAux (r : Re) : Nat → Option Char → Str → Nat → List (Nat × Str)
  | 0, _, _, _ => []
  | fuel + 1, prev, s, pos =>
    match firstMatch r prev s with
    | some (m, _, rest) =>
      if m.isEmpty then
        (pos, m) ::
          (match s with
           | [] => []
           | c :: cs => findAllSpansAux r fuel (some c) cs (pos + 1))
      else (pos, m) :: findAllSpansAux r fuel (lastOr m prev) rest (pos + m.length)
    | none =>
      match s with
      | [] => []
      | c :: cs => findAllSpansAux r fuel (some c) cs (pos + 1)

/-- All matches of `r` in `s` with their start offsets. -/
def findAllSpans (r : Re) (s : Str) : List (Nat × Str) :=
  findAllSpansAux r (s.length + 1) none s 0

/-- A single character matched verbatim (none of these are letters, so
`re.IGNORECASE` does not affect them). -/
def ch (c : Char) : Re := Re.cls (fun d => d = c)

/-- A character matched up to ASCII case, for letters inside literal
parts of a pattern under `re.IGNORECASE`. -/
def ciCh (c : Char) : Re := Re.cls (fun d => d.toLower = c.toLower)

/-- A literal string matched case-insensitively. -/
def lit (s : String) : Re := s.data.foldr (fun c r => Re.cat (ciCh c) r) Re.eps

/-- `r'\b[A-Za-z0-9._%+-]+@[A-Za-z0-9.-]+\.[A-Z|a-z]{2,}\b'` -/
def reEmail : Re :=
  Re.cat Re.wordB (Re.cat (Re.clsRep isEmailLocal 1 none)
    (Re.cat (ch '@') (Re.cat (Re.clsRep isEmailDomain 1 none)
      (Re.cat (ch '.') (Re.cat (Re.clsRep isTld 2 none) Re.wordB)))))

/-- The optional capture group `(\+\d{1,3}[-.\s]?)` of the phone
pattern. -/
def rePhoneCc : Re :=
  Re.grp (Re.cat (ch '+') (Re.cat (Re.clsRep isDig 1 (some 3))
    (Re.clsRep isSep 0 (some 1))))

/-- `r'\b(\+\d{1,3}[-.\s]?)?\(?\d{3}\)?[-.\s]?\d{3}[-.\s]?\d{4}\b'` -/
def rePhone : Re :=
  Re.cat Re.wordB (Re.cat (Re.opt rePhoneCc)
    (Re.cat (Re.clsRep (fun c => c = '(') 0 (some 1))
      (Re.cat (Re.clsRep isDig 3 (some 3))
        (Re.cat (Re.clsRep (fun c => c = ')') 0 (some 1))
          (Re.cat (Re.clsRep isSep 0 (some 1))
            (Re.cat (Re.clsRep isDig 3 (some 3))
              (Re.cat (Re.clsRep isSep 0 (some 1))
                (Re.cat (Re.clsRep isDig 4 (some 4)) Re.wordB))))))))

/-- `r'\b\d{3}-\d{2}-\d{4}\b'` -/
def reSsn : Re :=
  Re.cat Re.wordB (Re.cat (Re.clsRep isDig 3 (some 3))
    (Re.cat (ch '-') (Re.cat (Re.clsRep isDig 2 (some 2))
      (Re.cat (ch '-') (Re.cat (Re.clsRep isDig 4 (some 4)) Re.wordB)))))

/-- `r'\b\d{4}[-.\s]?\d{4}[-.\s]?\d{4}[-.\s]?\d{4}\b'` -/
def reCreditCard : Re :=
  Re.cat Re.wordB (Re.cat (Re.clsRep isDig 4 (some 4))
    (Re.cat (Re.clsRep isSep 0 (some 1)) (Re.cat (Re.clsRep isDig 4 (some 4))
      (Re.cat (Re.clsRep isSep 0 (some 1)) (Re.cat (Re.clsRep isDig 4 (some 4))
        (Re.cat (Re.clsRep isSep 0 (some 1))
          (Re.cat (Re.clsRep isDig 4 (some 4)) Re.wordB)))))))

/-- The capture group `(sk-|pk-|ghp_|gho_|ghu_|ghs_|ghr_)` of the
api_key pattern (alternatives in source order). -/
def reApiKeyPre : Re :=
  Re.grp (Re.alt (lit "sk-") (Re.alt (lit "pk-") (Re.alt (lit "ghp_")
    (Re.alt (lit "gho_") (Re.alt (lit "ghu_")
      (Re.alt (lit "ghs_") (lit "ghr_")))))))

/-- `r'\b(sk-|pk-|ghp_|gho_|ghu_|ghs_|ghr_)[a-zA-Z0-9]{20,}\b'` -/
def reApiKey : Re :=
  Re.cat Re.wordB (Re.cat reApiKeyPre
    (Re.cat (Re.clsRep isAlnum 20 none) Re.wordB))

/-- `r'\b[A-Z][a-z]+ [A-Z][a-z]+\b'` — under `re.IGNORECASE` both
classes match any ASCII letter. -/
def reName : Re :=
  Re.cat Re.wordB (Re.cat (Re.cls isLetter) (Re.cat (Re.clsRep isLetter 1 none)
    (Re.cat (ch ' ') (Re.cat (Re.cls isLetter)
      (Re.cat (Re.clsRep isLetter 1 none) Re.wordB)))))

/-- One registered detection rule: entity-type name, pattern, and
whether the regex contains a capture group (in which case `re.findall`
returns the group text instead of the whole match). -/
structure Pat where
  ptype : Str
  re : Re
  hasGroup : Bool

/-- `SimpleSecureAI.patterns`, in dict insertion order
(`src/simple_chat_demo.py` lines 22–29). -/
def patterns : List Pat :=
  [ ⟨str ("email"), reEmail, false⟩,
    ⟨str ("phone"), rePhone, true⟩,
    ⟨str ("ssn"), reSsn, false⟩,
    ⟨str ("credit_card"), reCreditCard, false⟩,
    ⟨str ("api_key"), reApiKey, true⟩,
    ⟨str ("name"), reName, false⟩ ]

/-- The value `re.findall` yields for one match: with a capture group,
the group-1 text (empty when the optional group did not participate);
without, the whole match. -/
def matchValue (hasGroup : Bool) (m : Str × Option Str) : Str :=
  if hasGroup then m.2.getD [] else m.1

/-- An entity as stored by `detect_entities`: `(type, value)`.  (The
source also stores a constant `confidence: 0.9` field, unused by the
redaction logic.) -/
abbrev Entity := Str × Str

/-- `SimpleSecureAI.detect_entities` (lines 35–48): for each pattern in
dict order, all `re.findall` results in text order. -/
def detect_entities (text : Str) : List Entity :=
  patterns.flatMap fun p =>
    (findAll p.re text).map fun m => (p.ptype, matchValue p.hasGroup m)

/-- The mutable state of a `SimpleSecureAI` object: the memo dict
`entity_mappings` (as an insertion-ordered association list with unique
keys) and `entity_counter`. -/
structure SState where
  entity_mappings : List (Str × Str)
  entity_counter : Nat
deriving DecidableEq, Repr

/-- The state right after `__init__`: empty dict, counter 1. -/
def initState : SState := ⟨[], 1⟩

/-- Dict lookup in the association list. -/
def lookupMap (k : Str) : List (Str × Str) → Option Str
  | [] => none
  | e :: es => if e.1 = k then some e.2 else lookupMap k es

/-- The memo key `f"{entity_type}:{value.lower()}"` (line 52). -/
def mkKey (t v : Str) : Str := t ++ ':' :: pyLower v

/-- The per-type mask strategy of `get_or_create_mapping` (lines
54–70), given the current counter.  Returns `none` exactly where the
Python raises: `username, domain = value.split('@')` fails unless the
value contains exactly one `@`. -/
def maskFor (t v : Str) (counter : Nat) : Option Str :=
  if t = str ("name") then
    some (str ("Person ") ++ [Char.ofNat (64 + counter)])
  else if t = str ("email") then
    match splitOnChar '@' v with
    | [username, domain] =>
      some (pyTake 2 username ++ str ("**@") ++ pyTake 2 domain ++
        str ("**@") ++ (splitOnChar '.' domain).getLastD [])
    | _ => none
  else if t = str ("phone") then
    some (pyTake 2 (keepDigits v) ++ str ("**-**-") ++ pyTakeLast 4 (keepDigits v))
  else if t = str ("ssn") then
    some (str ("***-**-****"))
  else if t = str ("credit_card") then
    some (str ("****-****-****-") ++ pyTakeLast 4 v)
  else if t = str ("api_key") then
    some (pyTake 4 v ++ str ("**********") ++ pyTakeLast 4 v)
  else
    some ('[' :: (pyUpper t ++ [']']))

/-- `SimpleSecureAI.get_or_create_mapping` (lines 50–75): return the
memoised mask for the key if present (state untouched), otherwise
generate a mask, append the new entry and bump the counter. -/
def get_or_create_mapping (t v : Str) (s : SState) : Option (Str × SState) :=
  let key := mkKey t v
  match lookupMap key s.entity_mappings with
  | some m => some (m, s)
  | none =>
    match maskFor t v s.entity_counter with
    | none => none
    | some mv => some (mv, ⟨s.entity_mappings ++ [(key, mv)], s.entity_counter + 1⟩)

/-- Python `str.replace` for an empty pattern: the replacement is
inserted at every position, including both ends. -/
def replaceEmpty (new : Str) : Str → Str
  | [] => new
  | c :: cs => new ++ c :: replaceEmpty new cs

/-- Python `str.replace` for a non-empty pattern: replace each
non-overlapping occurrence, scanning left to right; inserted text is
not rescanned.  The fuel argument only bounds the recursion (each step
consumes at least one character of the scanned string, so
`s.length + 1` is always enough). -/
def replaceAllPosAux (old new : Str) : Nat → Str → Str
  | 0, s => s
  | _ + 1, [] => []
  | fuel + 1, c :: cs =>
    if List.isPrefixOf old (c :: cs) then
      new ++ replaceAllPosAux old new fuel (List.drop (old.length - 1) cs)
    else
      c :: replaceAllPosAux old new fuel cs

/-- Python `str.replace` for a non-empty pattern. -/
def replaceAllPos (old new s : Str) : Str :=
  replaceAllPosAux old new (s.length + 1) s

/-- Python `content.replace(old, new)`. -/
def replaceAll (old new s : Str) : Str :=
  if old = [] then replaceEmpty new s else replaceAllPos old new s

/-- Stable insertion keeping the list sorted by descending value
length: the new entity goes after every already-placed entity of
greater or equal length.  Folding this over the detection list yields
exactly Python's stable `entities.sort(key=len of value, reverse=True)`
(line 83). -/
def insertByLen (e : Entity) : List Entity → List Entity
  | [] => [e]
  | f :: fs => if e.2.length ≤ f.2.length then f :: insertByLen e fs else e :: f :: fs

/-- `entities.sort(key=lambda x: len(x['value']), reverse=True)`. -/
def sortEntities (es : List Entity) : List Entity :=
  es.foldl (fun acc e => insertByLen e acc) []

/-- The substitution loop of `redact_content` (lines 85–88): for each
entity in sorted order, fetch/create its mask and textually replace
every occurrence of the value in the running string. -/
def applyEntities : List Entity → Str → SState → Option (Str × SState)
  | [], c, s => some (c, s)
  | e :: es, c, s =>
    match get_or_create_mapping e.1 e.2 s with
    | none => none
    | some (mv, s') => applyEntities es (replaceAll e.2 mv c) s'

/-- The result dict of `redact_content` (lines 90–95).  The source's
`entity_mappings` snapshot is `state.entity_mappings`; the sorted
entity list is what the source stores under `detected_entities` (the
sort happens in place before the report is built). -/
structure Report where
  original_content : Str
  redacted_content : Str
  detected_entities : List Entity
  state : SState
deriving DecidableEq, Repr

/-- `SimpleSecureAI.redact_content` (lines 77–95). -/
def redact_content (content : Str) (s : SState) : Option Report :=
  let sorted := sortEntities (detect_entities content)
  match applyEntities sorted content s with
  | none => none
  | some (red, s') => some ⟨content, red, sorted, s'⟩

/-- The input-validation gate of `SecureAI.redact_text`
(`src/src/secureai_sdk/client.py` lines 126–127):
`if not text or not text.strip(): raise ValidationError(...)`.
`true` means the call is rejected with a `ValidationError` before any
request is made; the remainder of `redact_text` is HTTP transport and
is outside the engine model. -/
def redactTextRejects (text : Str) : Bool :=
  text.isEmpty || (pyStrip text).isEmpty

/-!
Model of the specification's redesigned pipeline (spec §4.2, §4.3,
§4.6), used to compare the source's `redact_content` against the
claimed resolution and substitution policy.  The detector emits one
`RawMatch` per non-empty match with its span and matched text; the
resolver sorts by descending matched-text length with ascending start
offset as tie-break and greedily keeps non-overlapping spans; the
substitution replaces accepted spans at their original offsets in
descending start order.  Mask generation reuses the source's
`get_or_create_mapping`, whose per-type strategies coincide with the
spec's §4.4 table on detector-shaped values.
-/

/-- A raw detector match of the spec model: entity type, start offset
into the original text, and the matched text (spec §3, `RawMatch`; the
constant confidence field is omitted). -/
structure RawMatch where
  rtype : Str
  start : Nat
  text : Str
deriving DecidableEq, Repr

/-- Exclusive end offset of a match's span. -/
def RawMatch.stop (m : RawMatch) : Nat := m.start + m.text.length

/-- Spec-model detector: for every registered rule, every match with
its span and full matched text (spec §4.2). -/
def detectSpansAll (text : Str) : List RawMatch :=
  patterns.flatMap fun p =>
    (findAllSpans p.re text).map fun m => ⟨p.ptype, m.1, m.2⟩

/-- Do two spans intersect? -/
def spansOverlap (a b : RawMatch) : Bool :=
  a.start < b.stop && b.start < a.stop

/-- Stable insertion for the spec resolver's order: descending
matched-text length, ascending start offset as tie-break (spec §4.3). -/
def insertSpec (m : RawMatch) : List RawMatch → List RawMatch
  | [] => [m]
  | n :: ns =>
    if n.text.length > m.text.length ∨
        (n.text.length = m.text.length ∧ n.start ≤ m.start) then
      n :: insertSpec m ns
    else m :: n :: ns

/-- Sort matches by descending length, ascending start tie-break. -/
def sortSpec (ms : List RawMatch) : List RawMatch :=
  ms.foldl (fun acc m => insertSpec m acc) []

/-- Greedily accept a match if its span does not overlap any
already-accepted span, otherwise discard it (spec §4.3). -/
def greedyAccept : List RawMatch → List RawMatch → List RawMatch
  | acc, [] => acc
  | acc, m :: ms =>
    if acc.any (fun a => spansOverlap a m) then greedyAccept acc ms
    else greedyAccept (acc ++ [m]) ms

/-- Stable insertion by ascending start offset. -/
def insertByStart (m : RawMatch) : List RawMatch → List RawMatch
  | [] => [m]
  | n :: ns => if n.start ≤ m.start then n :: insertByStart m ns else m :: n :: ns

/-- Return accepted matches in ascending start-offset order. -/
def sortByStart (ms : List RawMatch) : List RawMatch :=
  ms.foldl (fun acc m => insertByStart m acc) []

/-- Spec §4.3 `resolve`: the non-overlapping accepted set, ascending. -/
def specResolve (ms : List RawMatch) : List RawMatch :=
  sortByStart (greedyAccept [] (sortSpec ms))

/-- Spec §4.6 step 3: for each resolved match in ascending order, fetch
or create its mask token. -/
def specMemo : List RawMatch → SState → Option (List (RawMatch × Str) × SState)
  | [], s => some ([], s)
  | m :: ms, s =>
    match get_or_create_mapping m.rtype m.text s with
    | none => none
    | some (mv, s') =>
      match specMemo ms s' with
      | none => none
      | some (prs, s'') => some ((m, mv) :: prs, s'')

/-- Replace the span `[start, start+len)` of `s` by `mask`. -/
def replaceSpan (s : Str) (start len : Nat) (mask : Str) : Str :=
  List.take start s ++ mask ++ List.drop (start + len) s

/-- Spec §4.6 step 4: substitute each accepted span with its token,
processing spans in descending start-offset order so all offsets refer
to the original string. -/
def specSubst (text : Str) (prs : List (RawMatch × Str)) : Str :=
  (sortByStart (prs.map Prod.fst)).reverse.foldl
    (fun acc m =>
      match prs.find? (fun pr => pr.1 = m) with
      | some pr => replaceSpan acc m.start m.text.length pr.2
      | none => acc)
    text

/-- The spec-modelled redaction pipeline (spec §4.6): detect, resolve,
memoise, substitute by original offsets. -/
def specRedact (text : Str) (s : SState) : Option (Str × SState) :=
  match specMemo (specResolve (detectSpansAll text)) s with
  | none => none
  | some (prs, s') => some (specSubst text prs, s')

/-- The memo keys the source's pass creates or touches, starting from a
fresh scope: the keys of the final mapping table. -/
def appliedKeys (text : Str) : Option (List Str) :=
  (redact_content text initState).map fun r => r.state.entity_mappings.map Prod.fst

/-- The memo keys the spec's resolved (non-overlapping) match set gives
rise to. -/
def resolvedKeys (text : Str) : List Str :=
  (specResolve (detectSpansAll text)).map fun m => mkKey m.rtype m.text

/-- The source pass's redacted text from a fresh scope. -/
def codeRedactedText (text : Str) : Option Str :=
  (redact_content text initState).map fun r => r.redacted_content

/-- The spec pipeline's redacted text from a fresh scope. -/
def specRedactedText (text : Str) : Option Str :=
  (specRedact text initState).map Prod.fst

/-- A sequence of direct `get_or_create_mapping` calls against one
scope object, as in the claim "for every sequence of calls". -/
def runCalls : List (Str × Str) → SState → Option SState
  | [], s => some s
  | c :: cs, s =>
    match get_or_create_mapping c.1 c.2 s with
    | none => none
    | some (_, s') => runCalls cs s'

/-- The entity-type names of the registered patterns; every call the
program itself makes into `get_or_create_mapping` uses one of these
(they are the `entity['type']` values `detect_entities` produces). -/
def patternTypes : List Str := patterns.map Pat.ptype

/-- States of a `SimpleSecureAI` object reachable from `__init__` by
`get_or_create_mapping` calls with program-generated entity types.
`redact_content` mutates the state only through such calls. -/
inductive Reachable : SState → Prop where
  | init : Reachable initState
  | step (t v tok : Str) (s s' : SState) :
      t ∈ patternTypes → Reachable s →
      get_or_create_mapping t v s = some (tok, s') → Reachable s'

/-- Redacting once and then redacting the result again with the same
scope: the redacted text of the second pass. -/
def secondPassText (text : Str) : Option Str :=
  (redact_content text initState).bind fun r1 =>
    (redact_content r1.redacted_content r1.state).map fun r2 =>
      r2.redacted_content

/-- The entities the detector finds in an already-redacted text. -/
def secondPassEntities (text : Str) : Option (List Entity) :=
  (redact_content text initState).map fun r1 =>
    detect_entities r1.redacted_content

/-- Pairwise descending-length order on an entity list (the order
`redact_content`'s sort produces). -/
def SortedByLenDesc (es : List Entity) : Prop :=
  es.Pairwise fun a b => b.2.length ≤ a.2.length

/-- Concrete inputs used by the claim instances below. -/
def phoneIn : Str := str ("555-123-4567")

def jsIn : Str := str ("John Smith@ac.com")

def cardPhoneIn : Str := str ("4111-1111-1111-1234 555-123-4567")

def apiIn : Str := str ("sk-12345678901234567890")

def ssnIn : Str := str ("123-45-6789")

def msg1 : Str := str ("John Smith emailed Sarah Johnson")

def msg2 : Str := str ("Sarah Johnson replied to John Smith")

/-! Helper lemmas about the memo table. -/

theorem lookupMap_append_of_some {k u : Str} (e : Str × Str) :
    ∀ m : List (Str × Str), lookupMap k m = some u → lookupMap k (m ++ [e]) = some u := by
  intro m
  induction m with
  | nil => intro h; simp [lookupMap] at h
  | cons f fs ih =>
    intro h
    rw [List.cons_append]
    simp only [lookupMap] at h ⊢
    split at h
    · next hf => rw [if_pos hf]; exact h
    · next hf => rw [if_neg hf]; exact ih h

theorem lookupMap_append_new {k v : Str} :
    ∀ m : List (Str × Str), lookupMap k m = none → lookupMap k (m ++ [(k, v)]) = some v := by
  intro m
  induction m with
  | nil => intro _; simp [lookupMap]
  | cons f fs ih =>
    intro h
    rw [List.cons_append]
    simp only [lookupMap] at h ⊢
    split at h
    · next hf => exact absurd h (by simp)
    · next hf => rw [if_neg hf]; exact ih h

theorem lookupMap_append_or {k k' u tok : Str} :
    ∀ m : List (Str × Str), lookupMap k (m ++ [(k', u)]) = some tok →
      lookupMap k m = some tok ∨ (k' = k ∧ u = tok) := by
  intro m
  induction m with
  | nil =>
    intro h
    simp only [List.nil_append, lookupMap] at h
    split at h
    · next hf => exact Or.inr ⟨hf, by injection h⟩
    · next hf => simp [lookupMap] at h
  | cons f fs ih =>
    intro h
    rw [List.cons_append] at h
    simp only [lookupMap] at h ⊢
    split at h
    · next hf => rw [if_pos hf]; exact Or.inl h
    · next hf => rw [if_neg hf]; exact ih h

theorem gocm_cases {t v tok : Str} {s s' : SState}
    (h : get_or_create_mapping t v s = some (tok, s')) :
    (lookupMap (mkKey t v) s.entity_mappings = some tok ∧ s' = s) ∨
    (lookupMap (mkKey t v) s.entity_mappings = none ∧
      maskFor t v s.entity_counter = some tok ∧
      s' = ⟨s.entity_mappings ++ [(mkKey t v, tok)], s.entity_counter + 1⟩) := by
  unfold get_or_create_mapping at h
  simp only at h
  split at h
  · next m hm =>
    injection h with h'
    rw [Prod.mk.injEq] at h'
    obtain ⟨h1, h2⟩ := h'
    exact Or.inl ⟨h1 ▸ hm, h2.symm⟩
  · next hm =>
    split at h
    · next hmf => exact absurd h (by simp)
    · next mv hmf =>
      injection h with h'
      rw [Prod.mk.injEq] at h'
      obtain ⟨h1, h2⟩ := h'
      subst h1
      exact Or.inr ⟨hm, hmf, h2.symm⟩

theorem gocm_hit {t v tok : Str} {s : SState}
    (h : lookupMap (mkKey t v) s.entity_mappings = some tok) :
    get_or_create_mapping t v s = some (tok, s) := by
  unfold get_or_create_mapping
  simp only [h]

theorem gocm_assigns {t v tok : Str} {s s' : SState}
    (h : get_or_create_mapping t v s = some (tok, s')) :
    lookupMap (mkKey t v) s'.entity_mappings = some tok := by
  rcases gocm_cases h with ⟨hm, rfl⟩ | ⟨hm, _, rfl⟩
  · exact hm
  · exact lookupMap_append_new _ hm

theorem gocm_preserves {t v tok : Str} {s s' : SState}
    (h : get_or_create_mapping t v s = some (tok, s')) {k u : Str}
    (hk : lookupMap k s.entity_mappings = some u) :
    lookupMap k s'.entity_mappings = some u := by
  rcases gocm_cases h with ⟨_, rfl⟩ | ⟨_, _, rfl⟩
  · exact hk
  · exact lookupMap_append_of_some _ _ hk

theorem runCalls_preserves :
    ∀ (cs : List (Str × Str)) {s s' : SState}, runCalls cs s = some s' →
      ∀ {k u : Str}, lookupMap k s.entity_mappings = some u →
        lookupMap k s'.entity_mappings = some u := by
  intro cs
  induction cs with
  | nil => intro s s' h k u hk; cases h; exact hk
  | cons c cs ih =>
    intro s s' h k u hk
    simp only [runCalls] at h
    split at h
    · exact absurd h (by simp)
    · next tok s₁ hg => exact ih h (gocm_preserves hg hk)

theorem applyEntities_preserves :
    ∀ (es : List Entity) {c red : Str} {s s' : SState},
      applyEntities es c s = some (red, s') →
      ∀ {k u : Str}, lookupMap k s.entity_mappings = some u →
        lookupMap k s'.entity_mappings = some u := by
  intro es
  induction es with
  | nil => intro c red s s' h k u hk; cases h; exact hk
  | cons e es ih =>
    intro c red s s' h k u hk
    simp only [applyEntities] at h
    split at h
    · exact absurd h (by simp)
    · next mv s₁ hg => exact ih h (gocm_preserves hg hk)

theorem applyEntities_reachable :
    ∀ (es : List Entity) {c red : Str} {s s' : SState},
      (∀ e ∈ es, e.1 ∈ patternTypes) → Reachable s →
      applyEntities es c s = some (red, s') → Reachable s' := by
  intro es
  induction es with
  | nil => intro c red s s' _ hs h; cases h; exact hs
  | cons e es ih =>
    intro c red s s' ht hs h
    simp only [applyEntities] at h
    split at h
    · exact absurd h (by simp)
    · next mv s₁ hg =>
      exact ih (fun f hf => ht f (List.mem_cons_of_mem e hf))
        (Reachable.step e.1 e.2 mv s s₁ (ht e (List.mem_cons_self e es)) hs hg) h

theorem applyEntities_assigns :
    ∀ (es : List Entity) {c red : Str} {s s' : SState},
      applyEntities es c s = some (red, s') →
      ∀ e ∈ es, lookupMap (mkKey e.1 e.2) s'.entity_mappings ≠ none := by
  intro es
  induction es with
  | nil => intro c red s s' _ e he; cases he
  | cons f fs ih =>
    intro c red s s' h e he
    simp only [applyEntities] at h
    split at h
    · exact absurd h (by simp)
    · next mv s₁ hg =>
      rcases List.mem_cons.mp he with rfl | he'
      · have := applyEntities_preserves fs h (gocm_assigns hg)
        simp [this]
      · exact ih h e he'

theorem redact_content_inv {text : Str} {s : SState} {r : Report}
    (h : redact_content text s = some r) :
    applyEntities (sortEntities (detect_entities text)) text s
        = some (r.redacted_content, r.state) ∧
      r.detected_entities = sortEntities (detect_entities text) ∧
      r.original_content = text := by
  unfold redact_content at h
  simp only at h
  split at h
  · exact absurd h (by simp)
  · next red s' ha =>
    injection h with h'
    subst h'
    exact ⟨ha, rfl, rfl⟩

/-! Helper lemmas about the sorting pass and detection. -/

theorem insertByLen_perm (e : Entity) :
    ∀ l : List Entity, List.Perm (insertByLen e l) (e :: l) := by
  intro l
  induction l with
  | nil => simp [insertByLen]
  | cons f fs ih =>
    simp only [insertByLen]
    split
    · exact (ih.cons f).trans (List.Perm.swap e f fs)
    · exact List.Perm.refl _

theorem sortEntities_perm (es : List Entity) :
    List.Perm (sortEntities es) es := by
  suffices h : ∀ (es acc : List Entity),
      List.Perm (es.foldl (fun acc e => insertByLen e acc) acc) (es ++ acc) by
    simpa using h es []
  intro es
  induction es with
  | nil => intro acc; simp
  | cons e es ih =>
    intro acc
    simp only [List.foldl_cons, List.cons_append]
    exact ((ih _).trans (List.Perm.append_left es (insertByLen_perm e acc))).trans
      (List.perm_middle.trans (List.Perm.refl _))

theorem insertByLen_mem {x e : Entity} {l : List Entity}
    (hx : x ∈ insertByLen e l) : x = e ∨ x ∈ l :=
  List.mem_cons.mp ((List.Perm.mem_iff (insertByLen_perm e l)).mp hx)

theorem insertByLen_sorted {e : Entity} :
    ∀ {l : List Entity}, SortedByLenDesc l → SortedByLenDesc (insertByLen e l) := by
  intro l
  induction l with
  | nil => intro _; simp [insertByLen, SortedByLenDesc]
  | cons f fs ih =>
    intro hs
    rcases List.pairwise_cons.mp hs with ⟨hf, hfs⟩
    simp only [insertByLen]
    split
    · next hle =>
      refine List.pairwise_cons.mpr ⟨?_, ih hfs⟩
      intro x hx
      rcases insertByLen_mem hx with rfl | h'
      · exact hle
      · exact hf x h'
    · next hgt =>
      have hef : f.2.length ≤ e.2.length := Nat.le_of_lt (Nat.lt_of_not_le hgt)
      refine List.pairwise_cons.mpr ⟨?_, hs⟩
      intro x hx
      rcases List.mem_cons.mp hx with rfl | h'
      · exact hef
      · exact Nat.le_trans (hf x h') hef

theorem sortEntities_sorted (es : List Entity) :
    SortedByLenDesc (sortEntities es) := by
  suffices h : ∀ (es acc : List Entity), SortedByLenDesc acc →
      SortedByLenDesc (es.foldl (fun acc e => insertByLen e acc) acc) by
    exact h es [] (by simp [SortedByLenDesc])
  intro es
  induction es with
  | nil => intro acc h; simpa using h
  | cons e es ih => intro acc h; exact ih _ (insertByLen_sorted h)

theorem detect_entities_types {text : Str} {e : Entity}
    (h : e ∈ detect_entities text) : e.1 ∈ patternTypes := by
  unfold detect_entities at h
  rcases List.mem_flatMap.mp h with ⟨p, hp, he⟩
  rcases List.mem_map.mp he with ⟨m, _, rfl⟩
  exact List.mem_map.mpr ⟨p, hp, rfl⟩

/-! Helper lemmas about memo keys and the ssn invariant. -/

theorem colon_key_inj :
    ∀ (t₁ t₂ a b : Str), ':' ∉ t₁ → ':' ∉ t₂ →
      t₁ ++ ':' :: a = t₂ ++ ':' :: b → t₁ = t₂ ∧ a = b := by
  intro t₁
  induction t₁ with
  | nil =>
    intro t₂ a b _ h₂ h
    cases t₂ with
    | nil => exact ⟨rfl, by injection h⟩
    | cons c cs =>
      rw [List.nil_append, List.cons_append] at h
      injection h with hc _
      exact absurd (by rw [← hc]; exact List.mem_cons_self ':' cs) h₂
  | cons c cs ih =>
    intro t₂ a b h₁ h₂ h
    cases t₂ with
    | nil =>
      rw [List.cons_append, List.nil_append] at h
      injection h with hc _
      exact absurd (by rw [hc]; exact List.mem_cons_self ':' cs) h₁
    | cons d ds =>
      rw [List.cons_append, List.cons_append] at h
      injection h with hc ht
      obtain ⟨he, ha⟩ := ih ds a b (fun hm => h₁ (List.mem_cons_of_mem c hm))
        (fun hm => h₂ (List.mem_cons_of_mem d hm)) ht
      exact ⟨by rw [hc, he], ha⟩

theorem mkKey_inj_type {t₁ t₂ v₁ v₂ : Str} (h₁ : ':' ∉ t₁) (h₂ : ':' ∉ t₂)
    (h : mkKey t₁ v₁ = mkKey t₂ v₂) : t₁ = t₂ :=
  (colon_key_inj t₁ t₂ (pyLower v₁) (pyLower v₂) h₁ h₂ h).1

theorem patternTypes_colon_free : ∀ t ∈ patternTypes, ':' ∉ t := by decide

theorem maskFor_ssn (v : Str) (c : Nat) :
    maskFor (str ("ssn")) v c = some (str ("***-**-****")) := rfl

/-- Invariant: in any reachable state, every entry stored under an
`ssn` key is the fixed literal mask. -/
theorem reachable_ssn_entries {s : SState} (hs : Reachable s) :
    ∀ v tok : Str,
      lookupMap (mkKey (str ("ssn")) v) s.entity_mappings = some tok →
        tok = str ("***-**-****") := by
  induction hs with
  | init => intro v tok h; simp [initState, lookupMap] at h
  | step t v₀ tok₀ s₀ s₀' ht _ hg ih =>
    intro v tok h
    rcases gocm_cases hg with ⟨_, rfl⟩ | ⟨_, hmf, rfl⟩
    · exact ih v tok h
    · simp only at h
      rcases lookupMap_append_or _ h with h' | ⟨hk, hu⟩
      · exact ih v tok h'
      · have htp : t = str ("ssn") :=
          mkKey_inj_type (patternTypes_colon_free t ht) (by decide) hk
        rw [htp, maskFor_ssn] at hmf
        injection hmf with hmf'
        rw [← hu, ← hmf']

theorem pyStrip_all_ws {t : Str} (h : ∀ c ∈ t, isPyWs c = true) :
    pyStrip t = [] := by
  unfold pyStrip
  have h1 : List.dropWhile isPyWs t = [] := List.dropWhile_eq_nil_iff.mpr h
  rw [h1]
  simp

/-! The claims. -/

/-- Claim C1: for every scope and every sequence of calls, once
`get_or_create_mapping` has assigned a MaskToken to an
(entity type, canonicalized value) key, the key holds that token, no
existing entry of the memo table is removed or altered (entries are
only added), and every later call with the same key — after any further
sequence of calls on the same scope object — returns exactly the stored
MaskToken, leaving the state unchanged. -/
theorem c1_memo_append_only_stable (t v tok : Str) (s s' : SState)
    (h : get_or_create_mapping t v s = some (tok, s')) :
    lookupMap (mkKey t v) s'.entity_mappings = some tok ∧
    (∀ k u : Str, lookupMap k s.entity_mappings = some u →
      lookupMap k s'.entity_mappings = some u) ∧
    (∀ (calls : List (Str × Str)) (s'' : SState), runCalls calls s' = some s'' →
      lookupMap (mkKey t v) s''.entity_mappings = some tok ∧
      get_or_create_mapping t v s'' = some (tok, s'')) := by
  refine ⟨gocm_assigns h, fun k u hk => gocm_preserves h hk, fun calls s'' hrun => ?_⟩
  have hl := runCalls_preserves calls hrun (gocm_assigns h)
  exact ⟨hl, gocm_hit hl⟩

/-- Witness for C1: after assigning the ssn value "9" in a fresh scope
and then interleaving an unrelated name call, a repeat call for "9"
still returns the stored token with the state unchanged. -/
theorem c1_memo_append_only_stable_witness :
    get_or_create_mapping (str ("ssn")) (str ("9"))
      (SState.mk [(mkKey (str ("ssn")) (str ("9")), str ("***-**-****")),
        (mkKey (str ("name")) (str ("Bob Ng")), str ("Person B"))] 3)
      = some (str ("***-**-****"),
        SState.mk [(mkKey (str ("ssn")) (str ("9")), str ("***-**-****")),
          (mkKey (str ("name")) (str ("Bob Ng")), str ("Person B"))] 3) := by
  have h := c1_memo_append_only_stable (str ("ssn")) (str ("9")) (str ("***-**-****"))
    initState (SState.mk [(mkKey (str ("ssn")) (str ("9")), str ("***-**-****"))] 2)
    (by decide)
  exact (h.2.2 [(str ("name"), str ("Bob Ng"))]
    (SState.mk [(mkKey (str ("ssn")) (str ("9")), str ("***-**-****")),
      (mkKey (str ("name")) (str ("Bob Ng")), str ("Person B"))] 3) (by decide)).2

/-- Claim C10 (implicit): for every entity type and scope, two raw
values that differ only in ASCII letter case are mapped to the same
memo key — the key lower-cases the raw value uniformly for all entity
types — and therefore the second value receives the identical
MaskToken already assigned to the first, with no state change. -/
theorem c10_lowercase_key_unifies (t v w tok : Str) (s s₁ : SState)
    (hvw : pyLower v = pyLower w)
    (h : get_or_create_mapping t v s = some (tok, s₁)) :
    mkKey t v = mkKey t w ∧
    get_or_create_mapping t w s₁ = some (tok, s₁) := by
  have hk : mkKey t v = mkKey t w := by unfold mkKey; rw [hvw]
  have hl := gocm_assigns h
  rw [hk] at hl
  exact ⟨hk, gocm_hit hl⟩

/-- Witness for C10: the API keys "sk-ABC" and "sk-abc" — distinct raw
values — share one memo key, and "sk-abc" receives the token assigned
to "sk-ABC". -/
theorem c10_lowercase_key_unifies_witness :
    get_or_create_mapping (str ("api_key")) (str ("sk-abc"))
      (SState.mk [(mkKey (str ("api_key")) (str ("sk-ABC")),
        str ("sk-A**********-ABC"))] 2)
      = some (str ("sk-A**********-ABC"),
        SState.mk [(mkKey (str ("api_key")) (str ("sk-ABC")),
          str ("sk-A**********-ABC"))] 2) :=
  (c10_lowercase_key_unifies (str ("api_key")) (str ("sk-ABC")) (str ("sk-abc"))
    (str ("sk-A**********-ABC")) initState
    (SState.mk [(mkKey (str ("api_key")) (str ("sk-ABC")),
      str ("sk-A**********-ABC"))] 2)
    (by decide) (by decide)).2

/-- Counterexample to claim C8: the two phone renderings
"555-123-4567" and "(555) 123-4567" — which the claim says canonicalize
to the same MaskKey — receive different keys, while the two distinct
real values "sk-ABC" and "sk-abc" — which the claim says never collide
— receive the same key. -/
theorem c8_counterexample :
    mkKey (str ("phone")) (str ("555-123-4567"))
        ≠ mkKey (str ("phone")) (str ("(555) 123-4567")) ∧
    mkKey (str ("api_key")) (str ("sk-ABC"))
        = mkKey (str ("api_key")) (str ("sk-abc")) ∧
    str ("sk-ABC") ≠ str ("sk-abc") := by decide

/-- Claim C8 (amended): canonicalization is the same for every entity
type — plain ASCII lower-casing of the raw value — so for a fixed type
two raw values share a MaskKey exactly when their lower-casings agree:
different punctuation renderings of one real value do not unify, and
distinct values differing only in letter case do collide. -/
theorem c8_amended_uniform_lowercase (t v w : Str) :
    mkKey t v = mkKey t w ↔ pyLower v = pyLower w := by
  unfold mkKey
  constructor
  · intro h
    have h' := List.append_cancel_left h
    injection h'
  · intro h
    rw [h]

/-- Claim C7: for every reachable scope state, every ssn entity
reported by a redaction pass is assigned the fixed literal MaskToken
`***-**-****`, independent of the matched value's digits. -/
theorem c7_ssn_fixed_token (s : SState) (hs : Reachable s) (text v : Str)
    (r : Report) (hr : redact_content text s = some r)
    (hd : (str ("ssn"), v) ∈ r.detected_entities) :
    lookupMap (mkKey (str ("ssn")) v) r.state.entity_mappings
      = some (str ("***-**-****")) := by
  obtain ⟨ha, hdet, _⟩ := redact_content_inv hr
  have hmem : (str ("ssn"), v) ∈ sortEntities (detect_entities text) := hdet ▸ hd
  have htypes : ∀ e ∈ sortEntities (detect_entities text), e.1 ∈ patternTypes :=
    fun e he =>
      detect_entities_types ((sortEntities_perm (detect_entities text)).mem_iff.mp he)
  have hreach : Reachable r.state := applyEntities_reachable _ htypes hs ha
  have hne := applyEntities_assigns _ ha _ hmem
  cases hcase : lookupMap (mkKey (str ("ssn")) v) r.state.entity_mappings with
  | none => exact absurd hcase hne
  | some tok =>
    rw [reachable_ssn_entries hreach v tok hcase]

/-- Witness for C7: redacting "123-45-6789" in a fresh scope reports
one ssn entity whose stored MaskToken is the fixed literal. -/
theorem c7_ssn_fixed_token_witness :
    lookupMap (mkKey (str ("ssn")) (str ("123-45-6789")))
      (SState.mk [(mkKey (str ("ssn")) (str ("123-45-6789")),
        str ("***-**-****"))] 2).entity_mappings
      = some (str ("***-**-****")) :=
  c7_ssn_fixed_token initState Reachable.init ssnIn (str ("123-45-6789"))
    (Report.mk ssnIn (str ("***-**-****"))
      [(str ("ssn"), str ("123-45-6789"))]
      (SState.mk [(mkKey (str ("ssn")) (str ("123-45-6789")),
        str ("***-**-****"))] 2))
    (by decide) (by decide)

/-- Counterexample to claim C2 at the input "John Smith@ac.com": the
detector finds an email match (span [5,17)) and a name match (span
[0,10)) whose spans intersect; the claimed policy would discard the
name match, but the source pass applies both — both receive memo
entries — so the set of matches actually applied is not the
non-overlapping greedily resolved set. -/
theorem c2_counterexample :
    detectSpansAll jsIn
        = [RawMatch.mk (str ("email")) 5 (str ("Smith@ac.com")),
           RawMatch.mk (str ("name")) 0 (str ("John Smith"))] ∧
    spansOverlap (RawMatch.mk (str ("email")) 5 (str ("Smith@ac.com")))
        (RawMatch.mk (str ("name")) 0 (str ("John Smith"))) = true ∧
    resolvedKeys jsIn = [mkKey (str ("email")) (str ("Smith@ac.com"))] ∧
    appliedKeys jsIn
        = some [mkKey (str ("email")) (str ("Smith@ac.com")),
                mkKey (str ("name")) (str ("John Smith"))] ∧
    appliedKeys jsIn ≠ some (resolvedKeys jsIn) := by decide

/-- Claim C2 (amended): the pass sorts the detected matches by
descending matched-value length (a stable sort, so ties keep detection
order, not ascending start offset), and discards nothing: every
detected match — overlapping or not — is applied, each receiving a memo
entry. -/
theorem c2_amended_no_discard :
    (∀ es : List Entity,
      List.Perm (sortEntities es) es ∧ SortedByLenDesc (sortEntities es)) ∧
    (∀ (text : Str) (s : SState) (r : Report), redact_content text s = some r →
      ∀ e ∈ detect_entities text,
        lookupMap (mkKey e.1 e.2) r.state.entity_mappings ≠ none) := by
  refine ⟨fun es => ⟨sortEntities_perm es, sortEntities_sorted es⟩, ?_⟩
  intro text s r hr e he
  obtain ⟨ha, _, _⟩ := redact_content_inv hr
  exact applyEntities_assigns _ ha e
    ((sortEntities_perm (detect_entities text)).mem_iff.mpr he)

/-- Witness for the amended C2: in the overlapping-match input, the
discarded-by-the-spec name match still gets a memo entry. -/
theorem c2_amended_no_discard_witness :
    lookupMap (mkKey (str ("name")) (str ("John Smith")))
      (SState.mk [(mkKey (str ("email")) (str ("Smith@ac.com")),
          str ("Sm**@ac**@com")),
        (mkKey (str ("name")) (str ("John Smith")), str ("Person B"))] 3).entity_mappings
      ≠ none :=
  c2_amended_no_discard.2 jsIn initState
    (Report.mk jsIn (str ("John Sm**@ac**@com"))
      [(str ("email"), str ("Smith@ac.com")), (str ("name"), str ("John Smith"))]
      (SState.mk [(mkKey (str ("email")) (str ("Smith@ac.com")),
          str ("Sm**@ac**@com")),
        (mkKey (str ("name")) (str ("John Smith")), str ("Person B"))] 3))
    (by decide) (str ("name"), str ("John Smith")) (by decide)

/-- Counterexample to claim C3 at the input
"4111-1111-1111-1234 555-123-4567": the source pass's output differs
from substituting the accepted spans at their original offsets
(the spec-pipeline result shown in the second conjunct) — the phone
rule's detected value is the empty capture group, and its textual
replacement is applied to the already-mutated string. -/
theorem c3_counterexample :
    codeRedactedText cardPhoneIn ≠ specRedactedText cardPhoneIn ∧
    specRedactedText cardPhoneIn
      = some (str ("****-****-****-1234 55**-**-4567")) := by decide

set_option maxRecDepth 8000 in
/-- Claim C3 (amended): the output is built by sequential textual
replacement on the running (already-mutated) string — each entity's
detected value is replaced at every occurrence, not at spans of the
original string.  At the counterexample input the credit card is
replaced first, then the phone entity's empty value inserts its mask at
every position of the mutated string, yielding the recorded output. -/
theorem c3_amended_mutated_string_replace :
    detect_entities cardPhoneIn
      = [(str ("phone"), []), (str ("credit_card"), str ("4111-1111-1111-1234"))] ∧
    codeRedactedText cardPhoneIn
      = some (str ("**-**-***-**-***-**-***-**-***-**--**-**-***-**-***-**-***-**-***-**--**-**-***-**-***-**-***-**-***-**--**-**-1**-**-2**-**-3**-**-4**-**- **-**-5**-**-5**-**-5**-**--**-**-1**-**-2**-**-3**-**--**-**-4**-**-5**-**-6**-**-7**-**-")) := by
  decide

/-- Claim C4 is about code the repository gets wrong: re-redacting the
redacted output of "sk-12345678901234567890" is not a no-op.  The
api_key rule's `re.findall` yields only the capture group "sk-"; its
mask "sk-**********sk-" ends in "sk-" directly before the untouched
remainder of the key, which re-matches the api_key pattern, so the
second pass substitutes again and the text keeps growing. -/
theorem c4_reredaction_not_idempotent :
    codeRedactedText apiIn = some (str ("sk-**********sk-12345678901234567890")) ∧
    secondPassEntities apiIn = some [(str ("api_key"), str ("sk-"))] ∧
    secondPassText apiIn
      = some (str ("sk-**********sk-**********sk-**********sk-12345678901234567890")) ∧
    secondPassText apiIn ≠ codeRedactedText apiIn := by decide

/-- Counterexample to claim C5: running the claim's own scenario — a
fresh scope redacting "John Smith emailed Sarah Johnson" and then
"Sarah Johnson replied to John Smith" — assigns "Sarah Johnson" the
token "Person C", not "Person A" or "Person B": the first message's
case-insensitive name heuristic matches "emailed Sarah" (consuming
"Sarah"), so "Sarah Johnson" is first seen, and numbered, only in the
second call. -/
theorem c5_counterexample :
    ((redact_content msg1 initState).bind fun r1 =>
      (redact_content msg2 r1.state).map fun r2 =>
        lookupMap (mkKey (str ("name")) (str ("Sarah Johnson")))
          r2.state.entity_mappings)
      = some (some (str ("Person C"))) ∧
    str ("Person C") ≠ str ("Person A") ∧
    str ("Person C") ≠ str ("Person B") := by decide

theorem maskFor_name (v : Str) (c : Nat) :
    maskFor (str ("name")) v c
      = some (str ("Person ") ++ [Char.ofNat (64 + c)]) := rfl

/-- Claim C5 (amended): a newly seen name receives
`"Person " + chr(64 + counter)`, where the counter counts every
previously created entity of any type, so the letters run A, B, C, …
only while all new entities are names, and past Z the token continues
through ASCII ("Person [", …), not "AA".  In the claim's scenario the
first call masks "emailed Sarah" as Person A and "John Smith" as
Person B (the length sort creates the longer value first), and the
second call adds "Sarah Johnson" as Person C and "replied to" as
Person D while "John Smith" stays Person B. -/
theorem c5_amended_ordinal_scheme :
    (∀ (v : Str) (s : SState),
      lookupMap (mkKey (str ("name")) v) s.entity_mappings = none →
      get_or_create_mapping (str ("name")) v s
        = some (str ("Person ") ++ [Char.ofNat (64 + s.entity_counter)],
            SState.mk (s.entity_mappings ++
              [(mkKey (str ("name")) v,
                str ("Person ") ++ [Char.ofNat (64 + s.entity_counter)])])
              (s.entity_counter + 1))) ∧
    ((redact_content msg1 initState).map (fun r => r.redacted_content)
        = some (str ("Person B Person A Johnson"))) ∧
    (((redact_content msg1 initState).bind fun r1 =>
        (redact_content msg2 r1.state).map fun r2 =>
          (r2.redacted_content, r2.state.entity_mappings))
      = some (str ("Person C Person D Person B"),
          [(mkKey (str ("name")) (str ("emailed Sarah")), str ("Person A")),
           (mkKey (str ("name")) (str ("John Smith")), str ("Person B")),
           (mkKey (str ("name")) (str ("Sarah Johnson")), str ("Person C")),
           (mkKey (str ("name")) (str ("replied to")), str ("Person D"))])) := by
  refine ⟨?_, by decide, by decide⟩
  intro v s h
  simp only [get_or_create_mapping, h, maskFor_name]

/-- Witness for the amended C5: the 27th entity created in a scope that
is a name receives "Person [" — ASCII after "Z" — not "Person AA". -/
theorem c5_amended_ordinal_scheme_witness :
    get_or_create_mapping (str ("name")) (str ("Zed Zed")) (SState.mk [] 27)
      = some (str ("Person ["),
          SState.mk [(mkKey (str ("name")) (str ("Zed Zed")), str ("Person ["))] 28) := by
  have h := c5_amended_ordinal_scheme.1 (str ("Zed Zed")) (SState.mk [] 27) (by decide)
  rw [h]
  decide

/-- Counterexample to claim C6: the demo engine's `redact_content`
accepts the empty input without any validation failure and returns a
full report (empty redacted text, no entities) — it does not reject
empty or whitespace-only input before detection. -/
theorem c6_counterexample :
    redact_content [] initState
      = some (Report.mk [] [] [] initState) := by decide

/-- Claim C6 (amended): the empty-or-whitespace validation lives in the
SDK client, not the engine: `SecureAI.redact_text` rejects every input
consisting only of whitespace (and the empty input) with a
`ValidationError` before doing anything else, while the demo engine's
`redact_content` performs no such check and happily produces a report
for empty input. -/
theorem c6_amended_validation_in_sdk :
    (∀ t : Str, (∀ c ∈ t, isPyWs c = true) → redactTextRejects t = true) ∧
    (redact_content [] initState).isSome = true := by
  refine ⟨?_, by decide⟩
  intro t h
  unfold redactTextRejects
  rw [pyStrip_all_ws h]
  simp

/-- Witness for the amended C6: the whitespace-only input "   " is
rejected by the SDK validation gate. -/
theorem c6_amended_validation_in_sdk_witness :
    redactTextRejects (str ("   ")) = true :=
  c6_amended_validation_in_sdk.1 (str ("   ")) (by decide)

/-- Claim C9 is about code the repository gets wrong: on
"555-123-4567" the phone rule has exactly one (non-empty) match — the
full text, as the span-level detector shows — yet the emitted entity
carries the empty string as its value, because `re.findall` returns the
optional country-code capture group rather than the match. -/
theorem c9_empty_match_value :
    detect_entities phoneIn = [(str ("phone"), [])] ∧
    detectSpansAll phoneIn
      = [RawMatch.mk (str ("phone")) 0 (str ("555-123-4567"))] ∧
    (str ("555-123-4567")).length ≠ 0 := by decide
